import Mathlib

/-!
Verification of the CashCrawler transaction archive reconciliation engine.

This file gives a shallow embedding, in Lean, of the storage layer
(src/lib/storage.ts: sanitizeName, getAccountDir, getTransactionsFilename,
parseTransactionsFilename, getLatestTransactionsFile, hasTransactionsForToday,
saveTransactionsCSV, mergeCSV, parseFrenchDate) and of the decision logic of
the Caisse-Epargne transaction downloader
(src/connectors/caisse-epargne/transactions.ts: extractTokenFromStorage,
resolveAuthHeader, buildAuthorizationHeader, downloadTransactions,
createDownloadRequests), together with theorems settling the specification
claims about them.

Modelling conventions:
- JavaScript strings are Lean `String`; most functions work on `String.data`
  (`List Char`).
- The file system is a function from directory paths to an optional list of
  directory entries; a `none` result models a missing directory.
- File modification times are modelled as milliseconds since the Unix epoch
  (`Nat`); the calendar day of a timestamp `t` is its epoch day `t / 86400000`,
  since `Date.prototype.toISOString` renders the UTC day and the rendering of
  epoch days as YYYY-MM-DD strings is injective.
- Network calls are modelled by explicit input lists (the JSON payloads the
  code reads) and oracles for the success of outbound requests; the model
  records the calls the engine issues.
-/

/-! ## JavaScript string primitives -/

/-- Characters matched by the JavaScript regular-expression class backslash-s
and removed by `String.prototype.trim` (the common subset actually reachable
here: space, tab, line feed, carriage return, vertical tab, form feed,
no-break space, byte order mark). -/
def jsWhitespace (c : Char) : Bool :=
  c = ' ' || c = '\t' || c = '\n' || c = '\r' || c = '\u000b' || c = '\u000c' ||
  c = ' ' || c = '﻿'

/-- Model of `String.prototype.trim`: drop whitespace from both ends. -/
def trimL (l : List Char) : List Char :=
  ((l.dropWhile jsWhitespace).reverse.dropWhile jsWhitespace).reverse

/-- Helper for `splitOnCharL`: returns the first piece and the remaining
pieces of the split. -/
def splitAux (sep : Char) : List Char → List Char × List (List Char)
  | [] => ([], [])
  | c :: cs =>
    let r := splitAux sep cs
    if c = sep then ([], r.1 :: r.2) else (c :: r.1, r.2)

/-- Model of `String.prototype.split` with a single-character separator:
`"".split(sep)` is `[""]`, separators are not collapsed. -/
def splitOnCharL (sep : Char) (l : List Char) : List (List Char) :=
  (splitAux sep l).1 :: (splitAux sep l).2

/-- Model of `Array.prototype.join` with a single-character separator. -/
def joinWithChar (sep : Char) : List (List Char) → List Char
  | [] => []
  | [x] => x
  | x :: y :: ys => x ++ sep :: joinWithChar sep (y :: ys)

/-- Helper for `dedupFirst`: drop elements already seen, keeping first
occurrences in order. -/
def dedupFirstAux (seen : List String) : List String → List String
  | [] => []
  | s :: rest =>
    if s ∈ seen then dedupFirstAux seen rest
    else s :: dedupFirstAux (s :: seen) rest

/-- Model of collecting strings into a JavaScript `Set` and reading it back
with `Array.from`: first occurrences survive, in insertion order. -/
def dedupFirst (l : List String) : List String :=
  dedupFirstAux [] l

/-! ## sanitizeName and path builders (src/lib/storage.ts) -/

/-- Canonical decomposition (NFD) of the accented Latin letters that occur in
French account labels, modelling `String.prototype.normalize("NFD")`: each
accented letter becomes its base letter followed by a combining mark.
Characters outside the table are left alone; any character this table misses
is removed by the later special-character filter, so the theorems below do
not depend on the table being complete. -/
def nfdChar (c : Char) : List Char :=
  match c with
  | 'à' => ['a', '̀'] | 'á' => ['a', '́'] | 'â' => ['a', '̂']
  | 'ä' => ['a', '̈'] | 'ç' => ['c', '̧'] | 'è' => ['e', '̀']
  | 'é' => ['e', '́'] | 'ê' => ['e', '̂'] | 'ë' => ['e', '̈']
  | 'î' => ['i', '̂'] | 'ï' => ['i', '̈'] | 'ô' => ['o', '̂']
  | 'ö' => ['o', '̈'] | 'ù' => ['u', '̀'] | 'û' => ['u', '̂']
  | 'ü' => ['u', '̈'] | 'À' => ['A', '̀'] | 'Á' => ['A', '́']
  | 'Â' => ['A', '̂'] | 'Ä' => ['A', '̈'] | 'Ç' => ['C', '̧']
  | 'È' => ['E', '̀'] | 'É' => ['E', '́'] | 'Ê' => ['E', '̂']
  | 'Ë' => ['E', '̈'] | 'Î' => ['I', '̂'] | 'Ï' => ['I', '̈']
  | 'Ô' => ['O', '̂'] | 'Ö' => ['O', '̈'] | 'Ù' => ['U', '̀']
  | 'Û' => ['U', '̂'] | 'Ü' => ['U', '̈']
  | _ => [c]

/-- Combining diacritical marks, the class removed by the regular expression
for the range U+0300 to U+036F in `sanitizeName`. -/
def isCombiningMark (c : Char) : Bool :=
  0x300 ≤ c.toNat && c.toNat ≤ 0x36f

/-- ASCII letters and digits, the literal part of the character class
`[a-zA-Z0-9 backslash-s -]` kept by `sanitizeName`. -/
def isAsciiAlnum (c : Char) : Bool :=
  (97 ≤ c.toNat && c.toNat ≤ 122) || (65 ≤ c.toNat && c.toNat ≤ 90) ||
  (48 ≤ c.toNat && c.toNat ≤ 57)

/-- Model of replacing every maximal whitespace run by a single underscore
(the regular expression replace of one-or-more whitespace with underscore).
The boolean argument records whether the previous character was whitespace. -/
def replaceWsRuns : List Char → Bool → List Char
  | [], _ => []
  | c :: cs, prevWs =>
    if jsWhitespace c then
      if prevWs then replaceWsRuns cs true else '_' :: replaceWsRuns cs true
    else c :: replaceWsRuns cs false

/-- Model of `sanitizeName` from src/lib/storage.ts: NFD-normalize, strip
combining marks, remove special characters, replace whitespace runs with a
single underscore, lower-case, trim. -/
def sanitizeName (name : String) : String :=
  let decomposed := (name.data.map nfdChar).flatten
  let noAccents := decomposed.filter (fun c => !isCombiningMark c)
  let noSpecial :=
    noAccents.filter (fun c => isAsciiAlnum c || jsWhitespace c || c = '-')
  let underscored := replaceWsRuns noSpecial false
  let lowered := underscored.map Char.toLower
  String.mk (trimL lowered)

/-- Model of `getTransactionsDir`: data/transactions/[bank-id]. -/
def getTransactionsDir (bankId : String) : String :=
  "data/transactions/" ++ bankId

/-- Model of `getAccountDir`: the per-account transactions directory, keyed by
the sanitized account name. -/
def getAccountDir (bankId accountName : String) : String :=
  getTransactionsDir bankId ++ "/" ++ sanitizeName accountName

/-- Model of `getTransactionsFilename`: strip the dashes from a YYYY-MM-DD
start date and wrap it as history-from-YYYYMMDD.csv. -/
def getTransactionsFilename (startDate : String) : String :=
  "history-from-" ++ String.mk (startDate.data.filter (fun c => c ≠ '-')) ++ ".csv"

/-- Reinsertion of the dashes into the eight-digit compact date captured by
the filename pattern: slices 0-4, 4-6 and 6-8 joined by dashes. -/
def dashifyCompact (l : List Char) : List Char :=
  l.take 4 ++ '-' :: ((l.drop 4).take 2 ++ '-' :: (l.drop 6).take 2)

/-- Model of `parseTransactionsFilename`: match the anchored pattern
history-from- followed by exactly eight digits followed by .csv, and return
the embedded start date in YYYY-MM-DD form, or `none` when the name does not
match. -/
def parseTransactionsFilename (filename : String) : Option String :=
  let l := filename.data
  if l.length = 25 ∧ l.take 13 = "history-from-".data ∧
      ((l.drop 13).take 8).all Char.isDigit ∧ l.drop 21 = ".csv".data then
    some (String.mk (dashifyCompact ((l.drop 13).take 8)))
  else none

/-! ## Date arithmetic (model of the JavaScript Date constructor) -/

/-- Digit-string parsing used by the model of the JavaScript `Number`
conversion: `none` when the characters are not all decimal digits. -/
def parseDigits (l : List Char) : Option Nat :=
  if !l.isEmpty && l.all Char.isDigit then
    some (l.foldl (fun acc c => acc * 10 + (c.toNat - 48)) 0)
  else none

/-- Model of the JavaScript `Number` conversion for the strings reached here:
trimmed empty input converts to 0, an optionally signed run of decimal digits
converts to its value, anything else is NaN, modelled as `none`. -/
def jsNumber (s : List Char) : Option Int :=
  let t := trimL s
  if t.isEmpty then some 0
  else
    match t with
    | '-' :: rest => (parseDigits rest).map (fun n => -(n : Int))
    | '+' :: rest => (parseDigits rest).map (fun n => (n : Int))
    | _ => (parseDigits t).map (fun n => (n : Int))

/-- Days since the Unix epoch of the civil date (y, m, d) with m between 1 and
12, the standard days-from-civil algorithm; it agrees with the day component
of the JavaScript `MakeDay` operation. -/
def daysFromCivil (y m d : Int) : Int :=
  let yAdj := if m ≤ 2 then y - 1 else y
  let era := Int.fdiv yAdj 400
  let yoe := yAdj - era * 400
  let mp := if 2 < m then m - 3 else m + 9
  let doy := Int.fdiv (153 * mp + 2) 5 + (d - 1)
  let doe := yoe * 365 + Int.fdiv yoe 4 - Int.fdiv yoe 100 + doy
  era * 146097 + doe - 719468

/-- Day-granularity model of `new Date(y, mIdx, d)`: the two-digit-year rule
maps 0..99 to 1900..1999, the month index is normalized into the year by
floor division, and day overflow is absorbed by adding (d - 1) days. Only
the relative order of the resulting values is used by the code (the sort
comparator subtracts two of them), and on that the day-granularity model
agrees with the millisecond clock. -/
def jsMakeDay (y mIdx d : Int) : Int :=
  let yAdj := if 0 ≤ y ∧ y ≤ 99 then y + 1900 else y
  let ym := yAdj + Int.fdiv mIdx 12
  let mn := Int.fmod mIdx 12
  daysFromCivil ym (mn + 1) 1 + (d - 1)

/-- Model of `parseFrenchDate` composed with `Date.prototype.getTime` at day
granularity: split on the slash, convert the first three parts as numbers in
day/month/year order, and build the date; a missing part or a NaN component
yields an invalid date, modelled as `none`. -/
def parseFrenchDate (dateStr : List Char) : Option Int :=
  match (splitOnCharL '/' dateStr).map jsNumber with
  | d? :: m? :: y? :: _ =>
    match d?, m?, y? with
    | some d, some m, some y => some (jsMakeDay y (m - 1) d)
    | _, _, _ => none
  | _ => none

/-- Sort key of a CSV data row inside `mergeCSV`: the first
semicolon-delimited field parsed as a French date. -/
def rowTime (line : String) : Option Int :=
  parseFrenchDate (splitAux ';' line.data).1

/-- The ordering the comparator of `mergeCSV` induces on rows: row `a` may be
placed before row `b` when the comparator value dateB - dateA is not
positive. When either date is invalid the comparator value is NaN, which the
ECMAScript SortCompare operation treats as 0, so either order is allowed;
the model keeps the original (stable) order in that case. -/
def jsRowLE (a b : String) : Bool :=
  match rowTime a, rowTime b with
  | some ta, some tb => tb ≤ ta
  | _, _ => true

/-! ## mergeCSV (src/lib/storage.ts) -/

/-- Lines of a CSV content as read by `mergeCSV`: split on the line feed and
keep the lines whose trimmed text is nonempty (the JavaScript filter on the
truthiness of the trimmed line). -/
def csvLines (s : String) : List String :=
  ((splitOnCharL '\n' s.data).filter (fun l => !(trimL l).isEmpty)).map
    (fun l => String.mk l)

/-- Joining the retained lines back with line feeds, the final
`[header, ...sortedData].join` of `mergeCSV`. -/
def joinLines (ls : List String) : String :=
  String.mk (joinWithChar '\n' (ls.map String.data))

/-- Model of `mergeCSV`: if either side has no nonblank line the other
content is returned verbatim; otherwise the header of the existing content
is kept, the data rows of both contents are collected into a set keyed by
exact line text (first occurrence wins), and the rows are emitted sorted by
their parsed date, newest first. `List.mergeSort` is a stable sort, which is
what the ECMAScript specification requires of `Array.prototype.sort`. -/
def mergeCSV (existing newContent : String) : String :=
  let existingLines := csvLines existing
  let newLines := csvLines newContent
  match existingLines, newLines with
  | [], _ => newContent
  | _ :: _, [] => existing
  | header :: edata, _ :: ndata =>
    let allData := dedupFirst (edata ++ ndata)
    let sortedData := allData.mergeSort jsRowLE
    joinLines (header :: sortedData)

/-! ## File-system model and the transactions storage layer -/

/-- One entry of an account directory: a file name, a modification time in
milliseconds since the epoch, and the file content. -/
structure FileEntry where
  name : String
  mtimeMs : Nat
  content : String
deriving DecidableEq

/-- Result record of `getLatestTransactionsFile`, mirroring the
TransactionFileInfo interface of the source (filePath is represented by the
file name inside the account directory). -/
structure TransactionFileInfo where
  accountName : String
  bankId : String
  startDate : String
  fileName : String
  lastModifiedMs : Nat
deriving DecidableEq

/-- Helper for `pickLatest`: the loop of `getLatestTransactionsFile`, keeping
the first-seen entry among ties because the comparison is strict. -/
def pickLatestAux (acc : FileEntry) : List FileEntry → FileEntry
  | [] => acc
  | f :: fs => pickLatestAux (if acc.mtimeMs < f.mtimeMs then f else acc) fs

/-- The most recently modified entry of a directory listing, or `none` when
the listing is empty. -/
def pickLatest : List FileEntry → Option FileEntry
  | [] => none
  | f :: fs => some (pickLatestAux f fs)

/-- Model of `getLatestTransactionsFile`: `none` when the account directory
does not exist, contains no .csv file, or the most recently modified .csv
file does not match the archive filename pattern; otherwise the parsed info
of that file. The file system is a function from directory paths to optional
listings. -/
def getLatestTransactionsFile (fs : String → Option (List FileEntry))
    (bankId accountName : String) : Option TransactionFileInfo :=
  match fs (getAccountDir bankId accountName) with
  | none => none
  | some entries =>
    let files := entries.filter (fun f => List.isSuffixOf ".csv".data f.name.data)
    match pickLatest files with
    | none => none
    | some f =>
      match parseTransactionsFilename f.name with
      | none => none
      | some sd => some ⟨accountName, bankId, sd, f.name, f.mtimeMs⟩

/-- Model of `hasTransactionsForToday`: true only when every account has a
latest transactions file whose modification day equals today. Days are
epoch-day numbers; the source compares the YYYY-MM-DD renderings, and the
rendering of epoch days is injective. -/
def hasTransactionsForToday (fs : String → Option (List FileEntry))
    (bankId : String) (accountNames : List String) (todayEpochDay : Nat) : Bool :=
  accountNames.all (fun accountName =>
    match getLatestTransactionsFile fs bankId accountName with
    | none => false
    | some info => info.lastModifiedMs / 86400000 == todayEpochDay)

/-- Model of `saveTransactionsCSV`, returning the pair of the filename chosen
for the account and the content written to it: the start date embedded in an
existing archive, when there is one, overrides the start date of the current
download; the new content is merged into the file at the chosen name when
that file exists and is written verbatim otherwise. -/
def saveTransactionsCSV (fs : String → Option (List FileEntry))
    (bankId accountName startDate csvContent : String) : String × String :=
  let existingFile := getLatestTransactionsFile fs bankId accountName
  let effectiveStartDate :=
    match existingFile with
    | some info => info.startDate
    | none => startDate
  let filename := getTransactionsFilename effectiveStartDate
  match ((fs (getAccountDir bankId accountName)).getD []).find?
      (fun f => f.name == filename) with
  | some f => (filename, mergeCSV f.content csvContent)
  | none => (filename, csvContent)

/-! ## Download-request reconciliation (src/connectors/caisse-epargne/transactions.ts) -/

/-- A remote history-request resource as the engine reads it from the
historyRequests listing: `pfmId` is the result of
extractHistoryRequestPfmContractId on the item identity, the dates are the
identity window fields, and `requestId` is the identification
historyRequestId. Absent fields are `none`. -/
structure HistoryItem where
  pfmId : Option String
  startDate : Option String
  endDate : Option String
  requestId : Option String
deriving DecidableEq

/-- The AccountDownloadInfo record of the source; absent fields are `none`. -/
structure AccountDownloadInfo where
  pfmContractId : Option String
  accountName : Option String
  startDate : Option String
  endDate : Option String
  historyRequestId : Option String
deriving DecidableEq

/-- JavaScript truthiness of an optional string: both an absent value and the
empty string are falsy. -/
def truthyOpt : Option String → Option String
  | some s => if s.isEmpty then none else some s
  | none => none

/-- Model of the target account set: the truthy pfmContractIds of the
accounts listing, deduplicated in insertion order (a JavaScript `Set`). -/
def targetPfmContractIds (accountsInfo : List AccountDownloadInfo) : List String :=
  dedupFirst (accountsInfo.filterMap (fun a => truthyOpt a.pfmContractId))

/-- Model of building historyByAccount: iterate the remote listing in order
and retain, per target account, the first matching resource. -/
def retainHistoryByAccount (targets : List String) (items : List HistoryItem) :
    List (String × HistoryItem) :=
  items.foldl
    (fun m item =>
      match truthyOpt item.pfmId with
      | some pfm =>
        if targets.contains pfm && (List.lookup pfm m).isNone then
          m ++ [(pfm, item)]
        else m
      | none => m)
    []

/-- The all-or-nothing reuse test: every target account must have a retained
resource whose window equals the reconciliation window exactly. -/
def allHaveCorrectDateRange (targets : List String)
    (hist : List (String × HistoryItem)) (startDate today : String) : Bool :=
  targets.all (fun pfm =>
    match List.lookup pfm hist with
    | some item => item.startDate == some startDate && item.endDate == some today
    | none => false)

/-- Conversion of a retained history item into the AccountDownloadInfo record
used by the download loop, as both branches of the source do it. -/
def dlInfoOfItem (pfmToName : String → Option String) (item : HistoryItem) :
    AccountDownloadInfo :=
  { pfmContractId := item.pfmId
    accountName :=
      match truthyOpt item.pfmId with
      | some p => pfmToName p
      | none => none
    startDate := item.startDate
    endDate := item.endDate
    historyRequestId := item.requestId }

/-- The create-request calls the engine posts: one per accountsInfo entry
with a truthy pfmContractId, in listing order. -/
def createCalls (accountsInfo : List AccountDownloadInfo) : List String :=
  accountsInfo.filterMap (fun a => truthyOpt a.pfmContractId)

/-- The number of create-request calls that succeeded, under a per-call
success oracle indexed by call position. -/
def createSuccessCount (calls : List String) (createOk : Nat → Bool) : Nat :=
  ((List.range calls.length).filter createOk).length

/-- Model of `createDownloadRequests`: post one create-request per truthy
account, abort with the fatal error when none succeeded, otherwise re-query
the resource list once (`updatedItems`) and return the download records of
the target accounts that now have a retained resource. -/
def createDownloadRequests (accountsInfo : List AccountDownloadInfo)
    (createOk : Nat → Bool) (updatedItems : List HistoryItem)
    (pfmToName : String → Option String) (targets : List String) :
    Except String (List AccountDownloadInfo) :=
  let calls := createCalls accountsInfo
  if createSuccessCount calls createOk = 0 then
    Except.error "Failed to create any download requests. Aborting."
  else
    let updatedHistoryByAccount := retainHistoryByAccount targets updatedItems
    Except.ok
      ((targets.filter (fun p => (List.lookup p updatedHistoryByAccount).isSome)).map
        (fun p =>
          dlInfoOfItem pfmToName
            ((List.lookup p updatedHistoryByAccount).getD ⟨none, none, none, none⟩)))

/-- Trace of one engine run past the freshness guard: the create-request
calls posted, the prepare-and-fetch attempts entered (by request id), the
accounts whose export was fetched and written, and the final result (the
downloaded count, or the fatal error). -/
structure RunOutcome where
  createdCalls : List String
  downloadAttempts : List String
  savedAccounts : List String
  result : Except String Nat

/-- The step-6 download loop of `downloadTransactions`: entries without a
truthy request id or account id are skipped; the per-account prepare and
fetch round trips are abstracted by a success oracle keyed by request id;
successes are written under the account name, with the Account_ fallback for
a falsy name. -/
def finishDownloads (created : List String)
    (accountsWithIds : List AccountDownloadInfo) (downloadOk : String → Bool) :
    RunOutcome :=
  let attempts := accountsWithIds.filter (fun a =>
    (truthyOpt a.historyRequestId).isSome && (truthyOpt a.pfmContractId).isSome)
  let succ := attempts.filter (fun a =>
    downloadOk ((truthyOpt a.historyRequestId).getD ""))
  { createdCalls := created
    downloadAttempts := attempts.filterMap (fun a => truthyOpt a.historyRequestId)
    savedAccounts := succ.map (fun a =>
      match truthyOpt a.accountName with
      | some n => n
      | none => "Account_" ++ (a.pfmContractId.getD ""))
    result := Except.ok succ.length }

/-- Model of `downloadTransactions` after the freshness guard and the two
read-only listings: decide reuse against the retained resources, either keep
the retained request ids for every target account or recreate requests for
all of them, then run the download loop; the fatal create error aborts the
run before any download attempt. -/
def downloadTransactionsAfterGuard (accountsInfo : List AccountDownloadInfo)
    (historyItems updatedItems : List HistoryItem) (startDate today : String)
    (pfmToName : String → Option String) (createOk : Nat → Bool)
    (downloadOk : String → Bool) : RunOutcome :=
  let targets := targetPfmContractIds accountsInfo
  let historyByAccount := retainHistoryByAccount targets historyItems
  if allHaveCorrectDateRange targets historyByAccount startDate today then
    finishDownloads []
      (targets.map (fun p =>
        dlInfoOfItem pfmToName
          ((List.lookup p historyByAccount).getD ⟨none, none, none, none⟩)))
      downloadOk
  else
    match createDownloadRequests accountsInfo createOk updatedItems pfmToName targets with
    | Except.error e =>
      { createdCalls := createCalls accountsInfo
        downloadAttempts := []
        savedAccounts := []
        result := Except.error e }
    | Except.ok accountsWithIds =>
      finishDownloads (createCalls accountsInfo) accountsWithIds downloadOk

/-! ## Credential resolver (src/connectors/caisse-epargne/transactions.ts) -/

/-- JSON values as produced by `JSON.parse`; numbers are carried as their
integral part plus a flag recording a nonzero fractional part, which is all
the code ever observes of them (truthiness and typeof). -/
inductive JsonVal where
  | null : JsonVal
  | bool (b : Bool) : JsonVal
  | num (intPart : Int) (fracNonzero : Bool) : JsonVal
  | str (s : List Char) : JsonVal
  | arr (elems : List JsonVal) : JsonVal
  | obj (fields : List (List Char × JsonVal)) : JsonVal

/-- Whitespace accepted between JSON tokens. -/
def jsonWs (c : Char) : Bool :=
  c = ' ' || c = '\t' || c = '\n' || c = '\r'

/-- Unescaped form of the single-character JSON string escapes. -/
def jsonEscChar (c : Char) : Option Char :=
  match c with
  | '"' => some '"'
  | '\\' => some '\\'
  | '/' => some '/'
  | 'b' => some '\x08'
  | 'f' => some '\x0c'
  | 'n' => some '\n'
  | 'r' => some '\r'
  | 't' => some '\t'
  | _ => none

/-- Value of a hexadecimal digit. -/
def hexDigitVal (c : Char) : Nat :=
  if 48 ≤ c.toNat && c.toNat ≤ 57 then c.toNat - 48
  else if 97 ≤ c.toNat && c.toNat ≤ 102 then c.toNat - 87
  else if 65 ≤ c.toNat && c.toNat ≤ 70 then c.toNat - 55
  else 0

/-- Is the character a hexadecimal digit. -/
def isHexDigit (c : Char) : Bool :=
  (48 ≤ c.toNat && c.toNat ≤ 57) || (97 ≤ c.toNat && c.toNat ≤ 102) ||
  (65 ≤ c.toNat && c.toNat ≤ 70)

/-- Parse the body of a JSON string after the opening quote, returning its
content and the remaining input after the closing quote. -/
def parseJStr : List Char → Option (List Char × List Char)
  | [] => none
  | '"' :: cs => some ([], cs)
  | '\\' :: 'u' :: h1 :: h2 :: h3 :: h4 :: cs =>
    if isHexDigit h1 && isHexDigit h2 && isHexDigit h3 && isHexDigit h4 then
      (parseJStr cs).map (fun p =>
        (Char.ofNat
          (((hexDigitVal h1 * 16 + hexDigitVal h2) * 16 + hexDigitVal h3) * 16 +
            hexDigitVal h4) :: p.1, p.2))
    else none
  | '\\' :: e :: cs =>
    match jsonEscChar e with
    | some c => (parseJStr cs).map (fun p => (c :: p.1, p.2))
    | none => none
  | c :: cs => (parseJStr cs).map (fun p => (c :: p.1, p.2))

/-- Parse a JSON number: optional minus sign, integer digits, optional
fraction and exponent; returns the integral part, whether the fraction is
nonzero, and the remaining input. -/
def parseJNum (l : List Char) : Option ((Int × Bool) × List Char) :=
  let (neg, l1) :=
    match l with
    | '-' :: rest => (true, rest)
    | _ => (false, l)
  let intDigits := l1.takeWhile Char.isDigit
  if intDigits.isEmpty then none
  else
    let l2 := l1.dropWhile Char.isDigit
    let (fracNonzero, l3) :=
      match l2 with
      | '.' :: rest =>
        (((rest.takeWhile Char.isDigit).any (fun c => c ≠ '0') : Bool),
          rest.dropWhile Char.isDigit)
      | _ => (false, l2)
    let l4 :=
      match l3 with
      | 'e' :: rest => ((match rest with
          | '+' :: r => r
          | '-' :: r => r
          | r => r).dropWhile Char.isDigit)
      | 'E' :: rest => ((match rest with
          | '+' :: r => r
          | '-' :: r => r
          | r => r).dropWhile Char.isDigit)
      | _ => l3
    let n : Int := intDigits.foldl (fun acc c => acc * 10 + ((c.toNat : Int) - 48)) 0
    some ((if neg then -n else n, fracNonzero), l4)

mutual

/-- Fuel-based recursive-descent parser for a JSON value; the fuel bounds the
nesting depth, and the callers supply one unit of fuel per input character,
which is always sufficient. -/
def parseJVal : Nat → List Char → Option (JsonVal × List Char)
  | 0, _ => none
  | Nat.succ fuel, l =>
    match l.dropWhile jsonWs with
    | '\x7b' :: rest =>
      match rest.dropWhile jsonWs with
      | '\x7d' :: rest2 => some (JsonVal.obj [], rest2)
      | _ => (parseJMembers fuel rest).map (fun p => (JsonVal.obj p.1, p.2))
    | '[' :: rest =>
      match rest.dropWhile jsonWs with
      | ']' :: rest2 => some (JsonVal.arr [], rest2)
      | _ => (parseJElems fuel rest).map (fun p => (JsonVal.arr p.1, p.2))
    | '"' :: rest => (parseJStr rest).map (fun p => (JsonVal.str p.1, p.2))
    | 't' :: 'r' :: 'u' :: 'e' :: rest => some (JsonVal.bool true, rest)
    | 'f' :: 'a' :: 'l' :: 's' :: 'e' :: rest => some (JsonVal.bool false, rest)
    | 'n' :: 'u' :: 'l' :: 'l' :: rest => some (JsonVal.null, rest)
    | rest => (parseJNum rest).map (fun p => (JsonVal.num p.1.1 p.1.2, p.2))

/-- Parse the members of a JSON object after the opening brace, consuming the
closing brace. -/
def parseJMembers : Nat → List Char → Option (List (List Char × JsonVal) × List Char)
  | 0, _ => none
  | Nat.succ fuel, l =>
    match l.dropWhile jsonWs with
    | '"' :: rest =>
      match parseJStr rest with
      | none => none
      | some (key, rest2) =>
        match rest2.dropWhile jsonWs with
        | ':' :: rest3 =>
          match parseJVal fuel rest3 with
          | none => none
          | some (v, rest4) =>
            match rest4.dropWhile jsonWs with
            | ',' :: rest5 =>
              (parseJMembers fuel rest5).map (fun p => ((key, v) :: p.1, p.2))
            | '\x7d' :: rest5 => some ([(key, v)], rest5)
            | _ => none
        | _ => none
    | _ => none

/-- Parse the elements of a JSON array after the opening bracket, consuming
the closing bracket. -/
def parseJElems : Nat → List Char → Option (List JsonVal × List Char)
  | 0, _ => none
  | Nat.succ fuel, l =>
    match parseJVal fuel l with
    | none => none
    | some (v, rest) =>
      match rest.dropWhile jsonWs with
      | ',' :: rest2 => (parseJElems fuel rest2).map (fun p => (v :: p.1, p.2))
      | ']' :: rest2 => some (v :: [], rest2)
      | _ => none

end

/-- Model of `JSON.parse`: parse one value and require only whitespace after
it; a parse failure (an exception in the source, caught and ignored) is
`none`. -/
def jsonParse (s : List Char) : Option JsonVal :=
  match parseJVal (s.length + 1) s with
  | some (v, rest) => if (rest.dropWhile jsonWs).isEmpty then some v else none
  | none => none

/-- Field access on a parsed JSON object: later duplicate keys overwrite
earlier ones, as in `JSON.parse`. -/
def jsGetField (fields : List (List Char × JsonVal)) (k : List Char) : Option JsonVal :=
  List.lookup k fields.reverse

/-- JavaScript truthiness of a JSON value. -/
def jsTruthy : JsonVal → Bool
  | JsonVal.null => false
  | JsonVal.bool b => b
  | JsonVal.num i f => !(i == 0 && !f)
  | JsonVal.str s => !s.isEmpty
  | JsonVal.arr _ => true
  | JsonVal.obj _ => true

/-- The token-candidate chain of `extractTokenFromStorage`: the first truthy
value among the conventional field names access_token, token, id_token,
authorization of a parsed object; `none` on a non-object. -/
def jsonTokenCandidate (v : JsonVal) : Option JsonVal :=
  match v with
  | JsonVal.obj fields =>
    let pick := fun (k : String) =>
      match jsGetField fields k.data with
      | some x => if jsTruthy x then some x else none
      | none => none
    pick "access_token" <|> pick "token" <|> pick "id_token" <|> pick "authorization"
  | _ => none

/-- Attempt (b) of the fallback chain: a stored value that looks like a JSON
object, parses, and has a conventional token field holding a string longer
than 10 characters. -/
def extractJsonTokenValue (value : List Char) : Option (List Char) :=
  if (trimL value).head? = some '\x7b' then
    match jsonParse value with
    | some v =>
      match jsonTokenCandidate v with
      | some (JsonVal.str s) => if 10 < s.length then some s else none
      | _ => none
    | none => none
  else none

/-- Characters of the token part of the bearer pattern, the regular
expression class of ASCII letters, digits, dot, underscore and hyphen. -/
def isBearerTokenChar (c : Char) : Bool :=
  isAsciiAlnum c || c = '.' || c = '_' || c = '-'

/-- Attempt to match the bearer pattern at the start of the input: the word
bearer case-insensitively, one or more whitespace characters, one or more
token characters, each run maximal as the greedy quantifiers require. -/
def matchBearerAt (l : List Char) : Option (List Char) :=
  let p := l.take 6
  if p.length = 6 && p.map Char.toLower == "bearer".data then
    let rest := l.drop 6
    let wsRun := rest.takeWhile jsWhitespace
    let tok := (rest.dropWhile jsWhitespace).takeWhile isBearerTokenChar
    if wsRun.isEmpty || tok.isEmpty then none
    else some (p ++ wsRun ++ tok)
  else none

/-- Leftmost match of the bearer pattern in a stored value, the regular
expression search of attempt (a). -/
def bearerSearch : List Char → Option (List Char)
  | [] => none
  | c :: cs =>
    match matchBearerAt (c :: cs) with
    | some m => some m
    | none => bearerSearch cs

/-- Case-insensitive match of a pattern at the start of the input. -/
def matchesCIAt (pat l : List Char) : Bool :=
  (l.take pat.length).map Char.toLower == pat

/-- Case-insensitive substring test, the regular expression test of attempt
(c). -/
def containsCI (pat : List Char) : List Char → Bool
  | [] => pat.isEmpty
  | c :: cs => matchesCIAt pat (c :: cs) || containsCI pat cs

/-- Does the storage key suggest a token or auth value. -/
def keyLooksAuthLike (key : List Char) : Bool :=
  containsCI "token".data key || containsCI "auth".data key

/-- The per-entry attempt chain of `extractTokenFromStorage`: skip falsy
values, then try the bearer pattern, then the JSON token fields, then the
key-name heuristic with the minimum length 10. -/
def tryStorageEntry (k v : String) : Option (String × String) :=
  if v.isEmpty then none
  else
    match bearerSearch v.data with
    | some m => some (String.mk m, k)
    | none =>
      match extractJsonTokenValue v.data with
      | some t => some (String.mk t, k)
      | none =>
        if keyLooksAuthLike k.data && 10 < v.length then some (v, k) else none

/-- Model of `extractTokenFromStorage`: scan the entries in order and return
the first token found with its source key. -/
def extractTokenFromStorage : List (String × String) → Option (String × String)
  | [] => none
  | (k, v) :: rest =>
    match tryStorageEntry k v with
    | some r => some r
    | none => extractTokenFromStorage rest

/-- Does the raw token already start with the word bearer followed by
whitespace, case-insensitively (the anchored test of
`buildAuthorizationHeader`). -/
def hasBearerPrefixCI (s : List Char) : Bool :=
  (s.take 6).length = 6 && (s.take 6).map Char.toLower == "bearer".data &&
    (match s.drop 6 with
     | c :: _ => jsWhitespace c
     | [] => false)

/-- Model of `buildAuthorizationHeader`: empty for a falsy token, the token
itself when it already carries the bearer prefix, otherwise the token with
the bearer prefix added. -/
def buildAuthorizationHeader : Option String → String
  | none => ""
  | some rawToken =>
    if rawToken.isEmpty then ""
    else if hasBearerPrefixCI rawToken.data then rawToken
    else "Bearer " ++ rawToken

/-- Model of `resolveAuthHeader`: prefer the header observed on an in-flight
request; otherwise scan the accumulated storage entries; with no match,
return the empty header and the source none (the run continues). -/
def resolveAuthHeader (fallbackAuthHeader : String)
    (storageEntries : List (String × String)) : String × String :=
  if !fallbackAuthHeader.isEmpty then (fallbackAuthHeader, "request")
  else
    match extractTokenFromStorage storageEntries with
    | none => ("", "none")
    | some (tok, key) => (buildAuthorizationHeader (some tok), "storage:" ++ key)

/-! ## Spec-side predicates -/

/-- The output alphabet the specification asserts for `sanitizeName`:
lowercase ASCII letters, digits, underscore and hyphen. -/
def isAllowedFileChar (c : Char) : Bool :=
  (97 ≤ c.toNat && c.toNat ≤ 122) || (48 ≤ c.toNat && c.toNat ≤ 57) ||
  c = '_' || c = '-'

/-- Spec-side reading of the freshness-guard contract for one account: the
account directory exists and holds an archive file (a .csv file whose name
matches the archive pattern) whose modification day is today. -/
def specHasArchiveModifiedToday (fs : String → Option (List FileEntry))
    (bankId accountName : String) (todayEpochDay : Nat) : Prop :=
  ∃ entries, fs (getAccountDir bankId accountName) = some entries ∧
    ∃ f ∈ entries, List.isSuffixOf ".csv".data f.name.data = true ∧
      (parseTransactionsFilename f.name).isSome = true ∧
      f.mtimeMs / 86400000 = todayEpochDay

/-! ## Helper lemmas: splitting, joining, deduplication -/

/-- Splitting a concatenation whose first part is free of the separator
prepends that part to the first piece. -/
theorem splitAux_append_not_mem (sep : Char) (x l : List Char) (hx : sep ∉ x) :
    splitAux sep (x ++ l) = (x ++ (splitAux sep l).1, (splitAux sep l).2) := by
  induction x with
  | nil => simp
  | cons c cs ih =>
    have hc : ¬(c = sep) := fun h => hx (h ▸ List.mem_cons_self c cs)
    have hcs : sep ∉ cs := fun h => hx (List.mem_cons_of_mem c h)
    simp only [List.cons_append, splitAux, if_neg hc, List.append_eq]
    rw [ih hcs]

/-- The pieces produced by `splitAux` do not contain the separator. -/
theorem splitAux_pieces_not_mem (sep : Char) (l : List Char) :
    sep ∉ (splitAux sep l).1 ∧ ∀ p ∈ (splitAux sep l).2, sep ∉ p := by
  induction l with
  | nil => simp [splitAux]
  | cons c cs ih =>
    by_cases hc : c = sep
    · simpa [splitAux, hc] using ⟨ih.1, ih.2⟩
    · refine ⟨?_, by simpa [splitAux, hc] using ih.2⟩
      simp only [splitAux, if_neg hc]
      intro hmem
      rcases List.mem_cons.mp hmem with h | h
      · exact hc h.symm
      · exact ih.1 h

/-- The pieces produced by `splitOnCharL` do not contain the separator. -/
theorem splitOnCharL_pieces_not_mem (sep : Char) (l : List Char) :
    ∀ p ∈ splitOnCharL sep l, sep ∉ p := by
  intro p hp
  rcases List.mem_cons.mp hp with h | h
  · exact h ▸ (splitAux_pieces_not_mem sep l).1
  · exact (splitAux_pieces_not_mem sep l).2 p h

/-- Splitting is a left inverse of joining, for a nonempty list of pieces
that do not contain the separator. -/
theorem splitOnCharL_joinWithChar (sep : Char) :
    ∀ (x : List Char) (xs : List (List Char)), sep ∉ x → (∀ p ∈ xs, sep ∉ p) →
      splitOnCharL sep (joinWithChar sep (x :: xs)) = x :: xs := by
  intro x xs
  induction xs generalizing x with
  | nil =>
    intro hx _
    have := splitAux_append_not_mem sep x [] hx
    simp only [List.append_nil] at this
    simp [splitOnCharL, joinWithChar, this, splitAux]
  | cons y ys ih =>
    intro hx hxs
    have hy : sep ∉ y := hxs y (List.mem_cons_self y ys)
    have hys : ∀ p ∈ ys, sep ∉ p := fun p hp => hxs p (List.mem_cons_of_mem y hp)
    have hJ := ih y hy hys
    have happ := splitAux_append_not_mem sep x
      (sep :: joinWithChar sep (y :: ys)) hx
    simp only [splitOnCharL] at hJ
    simp [joinWithChar, splitOnCharL, happ, splitAux]
    exact ⟨List.head_eq_of_cons_eq hJ, List.tail_eq_of_cons_eq hJ⟩

/-- Membership in the first-occurrence deduplication helper. -/
theorem mem_dedupFirstAux (a : String) :
    ∀ (l : List String) (seen : List String),
      a ∈ dedupFirstAux seen l ↔ a ∈ l ∧ a ∉ seen := by
  intro l
  induction l with
  | nil => simp [dedupFirstAux]
  | cons s rest ih =>
    intro seen
    by_cases hs : s ∈ seen
    · simp only [dedupFirstAux, if_pos hs, ih]
      constructor
      · exact fun ⟨h1, h2⟩ => ⟨List.mem_cons_of_mem s h1, h2⟩
      · rintro ⟨h1, h2⟩
        rcases List.mem_cons.mp h1 with rfl | h1
        · exact absurd hs h2
        · exact ⟨h1, h2⟩
    · simp only [dedupFirstAux, if_neg hs]
      constructor
      · intro h
        rcases List.mem_cons.mp h with rfl | h
        · exact ⟨List.mem_cons_self a rest, hs⟩
        · have := (ih (s :: seen)).mp h
          exact ⟨List.mem_cons_of_mem s this.1,
            fun hseen => this.2 (List.mem_cons_of_mem s hseen)⟩
      · rintro ⟨h1, h2⟩
        rcases List.mem_cons.mp h1 with rfl | h1
        · exact List.mem_cons_self a _
        · by_cases has : a = s
          · exact has ▸ List.mem_cons_self s _
          · exact List.mem_cons_of_mem s ((ih (s :: seen)).mpr
              ⟨h1, fun hm => (List.mem_cons.mp hm).elim has h2⟩)

/-- Deduplication preserves membership. -/
theorem mem_dedupFirst (a : String) (l : List String) :
    a ∈ dedupFirst l ↔ a ∈ l := by
  simp [dedupFirst, mem_dedupFirstAux]

/-! ## Helper lemmas: csvLines and mergeCSV -/

/-- Every line returned by `csvLines` is free of line feeds and has nonblank
trimmed text. -/
theorem mem_csvLines_props (x s : String) (h : s ∈ csvLines x) :
    '\n' ∉ s.data ∧ (trimL s.data).isEmpty = false := by
  simp only [csvLines, List.mem_map, List.mem_filter] at h
  obtain ⟨l, ⟨hl, hblank⟩, rfl⟩ := h
  refine ⟨splitOnCharL_pieces_not_mem '\n' x.data l hl, ?_⟩
  simpa using hblank

/-- Reading back a joined list of lines recovers the lines, provided they
are nonempty as a list, free of line feeds, and nonblank. -/
theorem csvLines_joinLines (ls : List String) (h0 : ls ≠ [])
    (hnl : ∀ s ∈ ls, '\n' ∉ s.data)
    (hnb : ∀ s ∈ ls, (trimL s.data).isEmpty = false) :
    csvLines (joinLines ls) = ls := by
  obtain ⟨s0, rest, rfl⟩ := List.exists_cons_of_ne_nil h0
  have hsplit :
      splitOnCharL '\n' (joinWithChar '\n' ((s0 :: rest).map String.data)) =
        (s0 :: rest).map String.data := by
    have := splitOnCharL_joinWithChar '\n' s0.data (rest.map String.data)
      (hnl s0 (List.mem_cons_self s0 rest))
      (by
        intro p hp
        obtain ⟨s, hs, rfl⟩ := List.mem_map.mp hp
        exact hnl s (List.mem_cons_of_mem s0 hs))
    simpa using this
  have hfilter :
      ((s0 :: rest).map String.data).filter (fun l => !(trimL l).isEmpty) =
        (s0 :: rest).map String.data := by
    apply List.filter_eq_self.mpr
    intro a ha
    obtain ⟨s, hs, rfl⟩ := List.mem_map.mp ha
    simp [hnb s hs]
  show csvLines (String.mk (joinWithChar '\n' ((s0 :: rest).map String.data))) = _
  simp only [csvLines, hsplit, hfilter, List.map_map]
  rw [show ((fun l => String.mk l) ∘ String.data) = id from funext fun s => rfl,
    List.map_id]

/-- Unfolding of `mergeCSV` when both contents have a nonblank line. -/
theorem mergeCSV_eq_joinLines (existing newContent header n0 : String)
    (edata ndata : List String) (h1 : csvLines existing = header :: edata)
    (h2 : csvLines newContent = n0 :: ndata) :
    mergeCSV existing newContent =
      joinLines (header :: (dedupFirst (edata ++ ndata)).mergeSort jsRowLE) := by
  simp [mergeCSV, h1, h2]

/-- The lines of a merged content: the existing header followed by the
deduplicated data rows of both sides, sorted by the row comparator. -/
theorem csvLines_mergeCSV (existing newContent header n0 : String)
    (edata ndata : List String) (h1 : csvLines existing = header :: edata)
    (h2 : csvLines newContent = n0 :: ndata) :
    csvLines (mergeCSV existing newContent) =
      header :: (dedupFirst (edata ++ ndata)).mergeSort jsRowLE := by
  rw [mergeCSV_eq_joinLines existing newContent header n0 edata ndata h1 h2]
  have hdata : ∀ r ∈ (dedupFirst (edata ++ ndata)).mergeSort jsRowLE,
      r ∈ csvLines existing ∨ r ∈ csvLines newContent := by
    intro r hr
    have : r ∈ edata ++ ndata :=
      (mem_dedupFirst r _).mp (List.mem_mergeSort.mp hr)
    rcases List.mem_append.mp this with h | h
    · exact Or.inl (h1 ▸ List.mem_cons_of_mem header h)
    · exact Or.inr (h2 ▸ List.mem_cons_of_mem n0 h)
  apply csvLines_joinLines
  · exact List.cons_ne_nil _ _
  · intro s hs
    rcases List.mem_cons.mp hs with rfl | hs
    · exact (mem_csvLines_props existing s (h1 ▸ List.mem_cons_self s edata)).1
    · rcases hdata s hs with h | h
      · exact (mem_csvLines_props existing s h).1
      · exact (mem_csvLines_props newContent s h).1
  · intro s hs
    rcases List.mem_cons.mp hs with rfl | hs
    · exact (mem_csvLines_props existing s (h1 ▸ List.mem_cons_self s edata)).2
    · rcases hdata s hs with h | h
      · exact (mem_csvLines_props existing s h).2
      · exact (mem_csvLines_props newContent s h).2

/-- On a list of rows whose dates all parse, the merge-sorted output is
pairwise ordered by the row comparator. The comparator is transitive and
total on such rows, so the restriction of `sorted_mergeSort` through
`attach` applies. -/
theorem pairwise_jsRowLE_mergeSort (l : List String)
    (hl : ∀ s ∈ l, (rowTime s).isSome = true) :
    (l.mergeSort jsRowLE).Pairwise (fun a b => jsRowLE a b = true) := by
  have hmap : (l.attach.mergeSort (fun a b => jsRowLE a.1 b.1)).map Subtype.val
      = l.mergeSort jsRowLE := by
    rw [List.map_mergeSort (s := jsRowLE) (fun a _ b _ => rfl),
      List.attach_map_subtype_val]
  have hs : (l.attach.mergeSort (fun a b => jsRowLE a.1 b.1)).Pairwise
      (fun a b => jsRowLE a.1 b.1 = true) := by
    apply List.sorted_mergeSort
    · rintro ⟨a, ha⟩ ⟨b, hb⟩ ⟨c, hc⟩ hab hbc
      obtain ⟨ta, hta⟩ := Option.isSome_iff_exists.mp (hl a ha)
      obtain ⟨tb, htb⟩ := Option.isSome_iff_exists.mp (hl b hb)
      obtain ⟨tc, htc⟩ := Option.isSome_iff_exists.mp (hl c hc)
      simp only [jsRowLE, hta, htb, htc, decide_eq_true_eq] at hab hbc ⊢
      omega
    · rintro ⟨a, ha⟩ ⟨b, hb⟩
      obtain ⟨ta, hta⟩ := Option.isSome_iff_exists.mp (hl a ha)
      obtain ⟨tb, htb⟩ := Option.isSome_iff_exists.mp (hl b hb)
      simp only [jsRowLE, hta, htb, Bool.or_eq_true, decide_eq_true_eq]
      omega
  rw [← hmap]
  exact List.Pairwise.map Subtype.val (fun a b h => h) hs

/-! ## Claim C5: merge idempotence on the row set -/

/-- C5. For every CSV content with at least one nonblank line, merging the
content with itself yields an output whose set of non-header rows equals the
original set of non-header rows. -/
theorem mergeCSV_self_row_set (X : String) (h : csvLines X ≠ []) :
    ((csvLines (mergeCSV X X)).tail).toFinset = ((csvLines X).tail).toFinset := by
  obtain ⟨header, edata, hX⟩ := List.exists_cons_of_ne_nil h
  rw [csvLines_mergeCSV X X header header edata edata hX hX, hX]
  simp only [List.tail_cons]
  ext a
  simp [List.mem_mergeSort, mem_dedupFirst]

/-- Witness for C5 at a concrete content with a duplicated row. -/
theorem mergeCSV_self_row_set_witness :
    csvLines "Date;L\n05/01/2024;a\n05/01/2024;a" ≠ [] ∧
    ((csvLines (mergeCSV "Date;L\n05/01/2024;a\n05/01/2024;a"
        "Date;L\n05/01/2024;a\n05/01/2024;a")).tail).toFinset =
      ((csvLines "Date;L\n05/01/2024;a\n05/01/2024;a").tail).toFinset :=
  ⟨by decide, mergeCSV_self_row_set _ (by decide)⟩

/-! ## Claim C6: a merge never discards retained rows -/

/-- C6. Every non-header row of the existing archive appears among the
non-header rows of the merged output, for any new export content. -/
theorem mergeCSV_preserves_rows (existing newContent r : String)
    (hr : r ∈ (csvLines existing).tail) :
    r ∈ (csvLines (mergeCSV existing newContent)).tail := by
  cases hE : csvLines existing with
  | nil => rw [hE] at hr; exact absurd hr (List.not_mem_nil r)
  | cons header edata =>
    rw [hE] at hr
    simp only [List.tail_cons] at hr
    cases hN : csvLines newContent with
    | nil =>
      have hsame : mergeCSV existing newContent = existing := by
        simp [mergeCSV, hE, hN]
      rw [hsame, hE]
      simpa using hr
    | cons n0 ndata =>
      rw [csvLines_mergeCSV existing newContent header n0 edata ndata hE hN]
      simp only [List.tail_cons]
      rw [List.mem_mergeSort, mem_dedupFirst]
      exact List.mem_append_left ndata hr

/-- Witness for C6 at a concrete pair of contents. -/
theorem mergeCSV_preserves_rows_witness :
    "05/01/2024;a" ∈ (csvLines "Date;L\n05/01/2024;a").tail ∧
    "05/01/2024;a" ∈
      (csvLines (mergeCSV "Date;L\n05/01/2024;a" "Date;L\n20/01/2024;b")).tail :=
  ⟨by decide, mergeCSV_preserves_rows _ _ _ (by decide)⟩

/-! ## Claim C7: merged output is the header plus rows sorted newest first -/

/-- C7. When both contents have a nonblank line and every retained data row
has a parseable date in its first field, the merged output is the existing
header followed by the deduplicated rows of both sides, sorted descending by
the parsed date, and those rows are exactly the data rows of the two inputs. -/
theorem mergeCSV_sorted_desc (existing newContent header n0 : String)
    (edata ndata : List String) (h1 : csvLines existing = header :: edata)
    (h2 : csvLines newContent = n0 :: ndata)
    (hp : ∀ r ∈ dedupFirst (edata ++ ndata), (rowTime r).isSome = true) :
    csvLines (mergeCSV existing newContent) =
      header :: (dedupFirst (edata ++ ndata)).mergeSort jsRowLE ∧
    ((dedupFirst (edata ++ ndata)).mergeSort jsRowLE).Pairwise
      (fun a b => ∀ ta tb, rowTime a = some ta → rowTime b = some tb → tb ≤ ta) ∧
    (∀ r, r ∈ (dedupFirst (edata ++ ndata)).mergeSort jsRowLE ↔ r ∈ edata ++ ndata) := by
  refine ⟨csvLines_mergeCSV existing newContent header n0 edata ndata h1 h2, ?_, ?_⟩
  · refine List.Pairwise.imp ?_ (pairwise_jsRowLE_mergeSort (dedupFirst (edata ++ ndata)) hp)
    intro a b hab ta tb hta htb
    simp only [jsRowLE, hta, htb, decide_eq_true_eq] at hab
    exact hab
  · intro r
    rw [List.mem_mergeSort, mem_dedupFirst]

unseal List.merge List.mergeSort in
/-- Witness for C7 at the example of the specification: rows dated
05/01/2024, 20/01/2024 and 01/01/2024 come out in the order 20/01/2024,
05/01/2024, 01/01/2024. -/
theorem mergeCSV_sorted_desc_witness :
    (csvLines (mergeCSV "Date;Label\n05/01/2024;a\n20/01/2024;b"
        "Date;Label\n01/01/2024;c") =
      "Date;Label" ::
        (dedupFirst (["05/01/2024;a", "20/01/2024;b"] ++ ["01/01/2024;c"])).mergeSort
          jsRowLE ∧
    ((dedupFirst (["05/01/2024;a", "20/01/2024;b"] ++ ["01/01/2024;c"])).mergeSort
        jsRowLE).Pairwise
      (fun a b => ∀ ta tb, rowTime a = some ta → rowTime b = some tb → tb ≤ ta) ∧
    (∀ r, r ∈ (dedupFirst (["05/01/2024;a", "20/01/2024;b"] ++
        ["01/01/2024;c"])).mergeSort jsRowLE ↔
        r ∈ ["05/01/2024;a", "20/01/2024;b"] ++ ["01/01/2024;c"])) ∧
    (dedupFirst (["05/01/2024;a", "20/01/2024;b"] ++ ["01/01/2024;c"])).mergeSort
        jsRowLE = ["20/01/2024;b", "05/01/2024;a", "01/01/2024;c"] :=
  ⟨mergeCSV_sorted_desc "Date;Label\n05/01/2024;a\n20/01/2024;b"
      "Date;Label\n01/01/2024;c" "Date;Label" "Date;Label"
      ["05/01/2024;a", "20/01/2024;b"] ["01/01/2024;c"]
      (by decide) (by decide) (by decide),
    by decide⟩

/-! ## Claim C10: sanitizeName output alphabet and name collisions -/

/-- Trimming only removes characters. -/
theorem mem_trimL (l : List Char) (c : Char) (h : c ∈ trimL l) : c ∈ l := by
  have h1 : c ∈ (l.dropWhile jsWhitespace).reverse.dropWhile jsWhitespace := by
    simpa [trimL] using h
  have h2 : c ∈ (l.dropWhile jsWhitespace).reverse :=
    (List.dropWhile_sublist _).mem h1
  exact (List.dropWhile_sublist _).mem (List.mem_reverse.mp h2)

/-- Characters of the whitespace-run replacement are underscores or
non-whitespace characters of the input. -/
theorem mem_replaceWsRuns :
    ∀ (l : List Char) (b : Bool) (c : Char), c ∈ replaceWsRuns l b →
      c = '_' ∨ (c ∈ l ∧ jsWhitespace c = false) := by
  intro l
  induction l with
  | nil => intro b c h; simp [replaceWsRuns] at h
  | cons x xs ih =>
    intro b c h
    by_cases hx : jsWhitespace x
    · simp only [replaceWsRuns, if_pos hx] at h
      cases b with
      | true =>
        rcases ih true c h with h' | h'
        · exact Or.inl h'
        · exact Or.inr ⟨List.mem_cons_of_mem x h'.1, h'.2⟩
      | false =>
        rcases List.mem_cons.mp h with rfl | h'
        · exact Or.inl rfl
        · rcases ih true c h' with h'' | h''
          · exact Or.inl h''
          · exact Or.inr ⟨List.mem_cons_of_mem x h''.1, h''.2⟩
    · simp only [replaceWsRuns, if_neg hx] at h
      rcases List.mem_cons.mp h with rfl | h'
      · exact Or.inr ⟨List.mem_cons_self c xs, by simpa using hx⟩
      · rcases ih false c h' with h'' | h''
        · exact Or.inl h''
        · exact Or.inr ⟨List.mem_cons_of_mem x h''.1, h''.2⟩

/-- The code-point of `Char.ofNat` below the surrogate range. -/
theorem toNat_charOfNat (n : Nat) (h : n < 55296) : (Char.ofNat n).toNat = n := by
  unfold Char.ofNat
  rw [dif_pos (Or.inl h)]
  simp [Char.ofNatAux, Char.toNat, UInt32.toNat, UInt32.ofNat', BitVec.toNat_ofNatLt]

/-- Lower-casing an ASCII letter, digit, hyphen or underscore lands in the
allowed archive-name alphabet. -/
theorem allowed_toLower (c : Char)
    (h : isAsciiAlnum c = true ∨ c = '-' ∨ c = '_') :
    isAllowedFileChar (Char.toLower c) = true := by
  rcases h with h | rfl | rfl
  · simp only [isAsciiAlnum, Bool.or_eq_true, Bool.and_eq_true,
      decide_eq_true_eq] at h
    unfold Char.toLower
    rcases h with (⟨h1, h2⟩ | ⟨h1, h2⟩) | ⟨h1, h2⟩
    · rw [if_neg (by omega)]
      simp only [isAllowedFileChar, Bool.or_eq_true, Bool.and_eq_true,
        decide_eq_true_eq]
      exact Or.inl (Or.inl (Or.inl ⟨h1, h2⟩))
    · rw [if_pos (by omega)]
      have hv : (Char.ofNat (c.toNat + 32)).toNat = c.toNat + 32 :=
        toNat_charOfNat _ (by omega)
      simp only [isAllowedFileChar, Bool.or_eq_true, Bool.and_eq_true,
        decide_eq_true_eq, hv]
      exact Or.inl (Or.inl (Or.inl ⟨by omega, by omega⟩))
    · rw [if_neg (by omega)]
      simp only [isAllowedFileChar, Bool.or_eq_true, Bool.and_eq_true,
        decide_eq_true_eq]
      exact Or.inl (Or.inl (Or.inr ⟨h1, h2⟩))
  · decide
  · decide

/-- C10. Every character of a sanitized name is a lowercase ASCII letter, a
digit, an underscore or a hyphen; consequently account names differing only
in case, accents or special characters share one archive directory. -/
theorem sanitizeName_charset :
    (∀ (name : String) (c : Char), c ∈ (sanitizeName name).data →
      isAllowedFileChar c = true) ∧
    getAccountDir "ce" "Épargne" = getAccountDir "ce" "EPARGNE" ∧
    getAccountDir "ce" "Compte Courant" = getAccountDir "ce" "compte   courant!!" := by
  refine ⟨?_, by decide, by decide⟩
  intro name c hc
  simp only [sanitizeName] at hc
  have h1 := mem_trimL _ _ hc
  obtain ⟨c0, hc0, rfl⟩ := List.mem_map.mp h1
  rcases mem_replaceWsRuns _ _ _ hc0 with h2 | ⟨h2, hws⟩
  · exact h2 ▸ allowed_toLower '_' (Or.inr (Or.inr rfl))
  · have h3 := (List.mem_filter.mp h2).2
    simp only [Bool.or_eq_true, decide_eq_true_eq] at h3
    rcases h3 with (h3 | h3) | h3
    · exact allowed_toLower c0 (Or.inl h3)
    · simp [h3] at hws
    · exact allowed_toLower c0 (Or.inr (Or.inl h3))

/-- Witness for C10: a character of a concrete sanitized accented name is in
the allowed alphabet. -/
theorem sanitizeName_charset_witness : isAllowedFileChar 'e' = true :=
  sanitizeName_charset.1 "Épargne" 'e' (by decide)

/-! ## Claims C1 and C2: anchor-date selection in saveTransactionsCSV -/

/-- String equality follows from equality of the underlying character
lists. -/
theorem string_ext (a b : String) (h : a.data = b.data) : a = b := by
  cases a; cases b; exact congrArg String.mk h

/-- A decimal digit is not a dash. -/
theorem ne_dash_of_isDigit (c : Char) (h : c.isDigit = true) : ¬(c = '-') := by
  intro hc
  rw [hc] at h
  exact absurd h (by decide)

/-- Removing the dashes reinserted by `dashifyCompact` recovers the original
eight digits. -/
theorem filter_dashifyCompact (mid : List Char) (hlen : mid.length = 8)
    (hdig : mid.all Char.isDigit = true) :
    (dashifyCompact mid).filter (fun c => decide (c ≠ '-')) = mid := by
  have hdig' : ∀ c ∈ mid, c.isDigit = true := by
    intro c hc
    exact List.all_eq_true.mp hdig c hc
  have hseg : ∀ (seg : List Char), (∀ c ∈ seg, c ∈ mid) →
      seg.filter (fun c => decide (c ≠ '-')) = seg := by
    intro seg hsub
    apply List.filter_eq_self.mpr
    intro a ha
    simpa using ne_dash_of_isDigit a (hdig' a (hsub a ha))
  have h1 : (mid.take 4).filter (fun c => decide (c ≠ '-')) = mid.take 4 :=
    hseg _ (fun c hc => List.mem_of_mem_take hc)
  have h2 : ((mid.drop 4).take 2).filter (fun c => decide (c ≠ '-')) =
      (mid.drop 4).take 2 :=
    hseg _ (fun c hc => List.mem_of_mem_drop (List.mem_of_mem_take hc))
  have h3 : ((mid.drop 6).take 2).filter (fun c => decide (c ≠ '-')) =
      (mid.drop 6).take 2 :=
    hseg _ (fun c hc => List.mem_of_mem_drop (List.mem_of_mem_take hc))
  have htake6 : (mid.drop 6).take 2 = mid.drop 6 :=
    List.take_of_length_le (by simp [hlen])
  have hdrop4 : (mid.drop 4).take 2 ++ mid.drop 6 = mid.drop 4 := by
    have := List.take_append_drop 2 (mid.drop 4)
    rwa [List.drop_drop] at this
  have hcons : ∀ (t : List Char),
      List.filter (fun c => decide (c ≠ '-')) ('-' :: t) =
        List.filter (fun c => decide (c ≠ '-')) t := by
    intro t
    simp [List.filter_cons]
  unfold dashifyCompact
  rw [List.filter_append, hcons, List.filter_append, hcons, h1, h2, h3, htake6,
    hdrop4, List.take_append_drop]

/-- Rebuilding a filename from the start date parsed out of it yields the
filename itself: the anchor is embedded faithfully. -/
theorem getTransactionsFilename_parse (filename sd : String)
    (h : parseTransactionsFilename filename = some sd) :
    getTransactionsFilename sd = filename := by
  by_cases hcond : filename.data.length = 25 ∧
      filename.data.take 13 = "history-from-".data ∧
      ((filename.data.drop 13).take 8).all Char.isDigit = true ∧
      filename.data.drop 21 = ".csv".data
  case neg =>
    have h' : (if filename.data.length = 25 ∧
        filename.data.take 13 = "history-from-".data ∧
        ((filename.data.drop 13).take 8).all Char.isDigit = true ∧
        filename.data.drop 21 = ".csv".data then
          some (String.mk (dashifyCompact ((filename.data.drop 13).take 8)))
        else none) = some sd := h
    rw [if_neg hcond] at h'
    exact absurd h' (by simp)
  case pos =>
    obtain ⟨hlen, htake, hdig, hdrop⟩ := hcond
    have h' : (if filename.data.length = 25 ∧
        filename.data.take 13 = "history-from-".data ∧
        ((filename.data.drop 13).take 8).all Char.isDigit = true ∧
        filename.data.drop 21 = ".csv".data then
          some (String.mk (dashifyCompact ((filename.data.drop 13).take 8)))
        else none) = some sd := h
    rw [if_pos ⟨hlen, htake, hdig, hdrop⟩] at h'
    replace h := h'
    have hsd : sd = String.mk (dashifyCompact ((filename.data.drop 13).take 8)) :=
      (Option.some.inj h).symm
    have hmidlen : ((filename.data.drop 13).take 8).length = 8 := by
      simp [List.length_take, List.length_drop, hlen]
    apply string_ext
    rw [hsd]
    show ("history-from-" ++
        String.mk ((dashifyCompact ((filename.data.drop 13).take 8)).filter
          (fun c => decide (c ≠ '-'))) ++ ".csv").data = filename.data
    rw [String.data_append, String.data_append,
      filter_dashifyCompact _ hmidlen hdig]
    have hsplit : filename.data =
        filename.data.take 13 ++
          ((filename.data.drop 13).take 8 ++ (filename.data.drop 13).drop 8) := by
      rw [List.take_append_drop, List.take_append_drop]
    rw [List.drop_drop] at hsplit
    calc "history-from-".data ++ ((filename.data.drop 13).take 8 ++ ".csv".data)
        = filename.data.take 13 ++
            ((filename.data.drop 13).take 8 ++ filename.data.drop 21) := by
          rw [htake, hdrop]
      _ = filename.data := hsplit.symm

/-- The file info returned by `getLatestTransactionsFile` carries the start
date parsed from its own file name. -/
theorem parse_of_getLatestTransactionsFile
    (fs : String → Option (List FileEntry)) (bankId accountName : String)
    (info : TransactionFileInfo)
    (h : getLatestTransactionsFile fs bankId accountName = some info) :
    parseTransactionsFilename info.fileName = some info.startDate := by
  unfold getLatestTransactionsFile at h
  rcases hdir : fs (getAccountDir bankId accountName) with _ | entries <;>
    rw [hdir] at h
  · exact absurd h (by simp)
  · rcases hpick : pickLatest
        (entries.filter (fun f => List.isSuffixOf ".csv".data f.name.data)) with
      _ | f <;> simp only [hpick] at h
    · exact absurd h (by simp)
    · rcases hparse : parseTransactionsFilename f.name with _ | sd <;>
        rw [hparse] at h
      · exact absurd h (by simp)
      · cases Option.some.inj h
        simpa using hparse

/-- C2. When an archive already exists for the account, the output filename
is built from the anchor embedded in that archive (and therefore equals the
existing file name), regardless of the start date of the current run; only
when no archive exists does the start date of the current run become the
anchor. -/
theorem saveTransactionsCSV_filename_selection
    (fs : String → Option (List FileEntry))
    (bankId accountName startDate csvContent : String) :
    (∀ info, getLatestTransactionsFile fs bankId accountName = some info →
      (saveTransactionsCSV fs bankId accountName startDate csvContent).1 =
        getTransactionsFilename info.startDate ∧
      (saveTransactionsCSV fs bankId accountName startDate csvContent).1 =
        info.fileName) ∧
    (getLatestTransactionsFile fs bankId accountName = none →
      (saveTransactionsCSV fs bankId accountName startDate csvContent).1 =
        getTransactionsFilename startDate) := by
  constructor
  · intro info h
    have hname : getTransactionsFilename info.startDate = info.fileName :=
      getTransactionsFilename_parse info.fileName info.startDate
        (parse_of_getLatestTransactionsFile fs bankId accountName info h)
    have hfst : (saveTransactionsCSV fs bankId accountName startDate csvContent).1 =
        getTransactionsFilename info.startDate := by
      unfold saveTransactionsCSV
      rw [h]
      rcases hf : ((fs (getAccountDir bankId accountName)).getD []).find?
          (fun f => f.name == getTransactionsFilename info.startDate) with _ | f <;>
        simp [hf]
    exact ⟨hfst, hname ▸ hfst⟩
  · intro h
    unfold saveTransactionsCSV
    rw [h]
    rcases hf : ((fs (getAccountDir bankId accountName)).getD []).find?
        (fun f => f.name == getTransactionsFilename startDate) with _ | f <;>
      simp [hf]

/-- Witness for C2 at a concrete file system holding one archive anchored at
2023-03-01 while the current run starts at 2024-06-01. -/
theorem saveTransactionsCSV_filename_selection_witness :
    (saveTransactionsCSV
      (fun p => if p = getAccountDir "ce" "main" then
          some [⟨"history-from-20230301.csv", 5, "Date;L\n01/04/2023;x"⟩] else none)
      "ce" "main" "2024-06-01" "Date;L\n02/06/2024;y").1 =
      "history-from-20230301.csv" :=
  ((saveTransactionsCSV_filename_selection _ "ce" "main" "2024-06-01"
      "Date;L\n02/06/2024;y").1
    ⟨"main", "ce", "2023-03-01", "history-from-20230301.csv", 5⟩ (by decide)).2

/-- C1, failing input. With an archive anchored at 2023-03-01 and a new
export whose window starts earlier, at 2022-01-01, the code keeps the later
anchor 2023-03-01 in the output filename instead of the earlier boundary the
specification (and the doc comment of saveTransactionsCSV itself) requires. -/
theorem saveTransactionsCSV_keeps_later_anchor :
    (saveTransactionsCSV
      (fun p => if p = getAccountDir "ce" "main" then
          some [⟨"history-from-20230301.csv", 5, "Date;L\n01/04/2023;x"⟩] else none)
      "ce" "main" "2022-01-01" "Date;L\n05/01/2022;y").1 =
      "history-from-20230301.csv" ∧
    ¬((saveTransactionsCSV
      (fun p => if p = getAccountDir "ce" "main" then
          some [⟨"history-from-20230301.csv", 5, "Date;L\n01/04/2023;x"⟩] else none)
      "ce" "main" "2022-01-01" "Date;L\n05/01/2022;y").1 =
      getTransactionsFilename "2022-01-01") := by
  constructor
  · decide
  · decide

/-! ## Claim C8: the freshness guard -/

/-- The entry chosen by the selection loop is one of the candidates. -/
theorem pickLatestAux_mem (l : List FileEntry) :
    ∀ acc : FileEntry, pickLatestAux acc l ∈ acc :: l := by
  induction l with
  | nil => intro acc; simp [pickLatestAux]
  | cons f fs ih =>
    intro acc
    show pickLatestAux (if acc.mtimeMs < f.mtimeMs then f else acc) fs ∈ acc :: f :: fs
    have h := ih (if acc.mtimeMs < f.mtimeMs then f else acc)
    rcases List.mem_cons.mp h with h' | h'
    · rw [h']
      by_cases hlt : acc.mtimeMs < f.mtimeMs
      · rw [if_pos hlt]
        exact List.mem_cons_of_mem acc (List.mem_cons_self f fs)
      · rw [if_neg hlt]
        exact List.mem_cons_self acc (f :: fs)
    · exact List.mem_cons_of_mem acc (List.mem_cons_of_mem f h')

/-- The entry chosen by the selection loop has the largest modification
time among the candidates. -/
theorem le_pickLatestAux (l : List FileEntry) :
    ∀ (acc : FileEntry), ∀ g ∈ acc :: l,
      g.mtimeMs ≤ (pickLatestAux acc l).mtimeMs := by
  induction l with
  | nil =>
    intro acc g hg
    rcases List.mem_cons.mp hg with rfl | hg
    · exact Nat.le_refl _
    · exact absurd hg (List.not_mem_nil g)
  | cons f fs ih =>
    intro acc g hg
    show g.mtimeMs ≤ (pickLatestAux (if acc.mtimeMs < f.mtimeMs then f else acc) fs).mtimeMs
    have hacc : acc.mtimeMs ≤ (if acc.mtimeMs < f.mtimeMs then f else acc).mtimeMs := by
      by_cases hlt : acc.mtimeMs < f.mtimeMs
      · rw [if_pos hlt]; exact Nat.le_of_lt hlt
      · rw [if_neg hlt]
    have hf : f.mtimeMs ≤ (if acc.mtimeMs < f.mtimeMs then f else acc).mtimeMs := by
      by_cases hlt : acc.mtimeMs < f.mtimeMs
      · rw [if_pos hlt]
      · rw [if_neg hlt]; exact Nat.le_of_not_lt hlt
    rcases List.mem_cons.mp hg with rfl | hg
    · exact Nat.le_trans hacc (ih _ _ (List.mem_cons_self _ fs))
    · rcases List.mem_cons.mp hg with rfl | hg
      · exact Nat.le_trans hf (ih _ _ (List.mem_cons_self _ fs))
      · exact ih _ g (List.mem_cons_of_mem _ hg)

/-- Elimination form of a successful `getLatestTransactionsFile`: the chosen
entry is a .csv entry of the account directory, its name parses to the
returned start date, and its fields are copied into the result. -/
theorem getLatest_some_elim (fs : String → Option (List FileEntry))
    (bankId accountName : String) (info : TransactionFileInfo)
    (h : getLatestTransactionsFile fs bankId accountName = some info) :
    ∃ entries, fs (getAccountDir bankId accountName) = some entries ∧
      ∃ f ∈ entries, List.isSuffixOf ".csv".data f.name.data = true ∧
        parseTransactionsFilename f.name = some info.startDate ∧
        f.mtimeMs = info.lastModifiedMs ∧ f.name = info.fileName := by
  unfold getLatestTransactionsFile at h
  rcases hdir : fs (getAccountDir bankId accountName) with _ | entries <;>
    rw [hdir] at h
  · exact absurd h (by simp)
  · refine ⟨entries, rfl, ?_⟩
    rcases hfil : entries.filter (fun f => List.isSuffixOf ".csv".data f.name.data) with
      _ | ⟨x, xs⟩ <;> simp only [hfil, pickLatest] at h
    · exact absurd h (by simp)
    · rcases hparse : parseTransactionsFilename (pickLatestAux x xs).name with _ | sd <;>
        rw [hparse] at h
      · exact absurd h (by simp)
      · cases Option.some.inj h
        have hmem : pickLatestAux x xs ∈ x :: xs := pickLatestAux_mem xs x
        rw [← hfil] at hmem
        exact ⟨pickLatestAux x xs, (List.mem_filter.mp hmem).1,
          (List.mem_filter.mp hmem).2, hparse, rfl, rfl⟩

/-- C8. Under the assumptions that no file in an account directory has a
modification day in the future and that every .csv file there has an archive
name, the freshness guard returns true exactly when every account has an
archive file whose modification day is today; it is a pure read of the file
system. -/
theorem hasTransactionsForToday_iff (fs : String → Option (List FileEntry))
    (bankId : String) (accountNames : List String) (todayEpochDay : Nat)
    (hpast : ∀ an ∈ accountNames, ∀ entries,
      fs (getAccountDir bankId an) = some entries →
      ∀ f ∈ entries, f.mtimeMs / 86400000 ≤ todayEpochDay)
    (hparse : ∀ an ∈ accountNames, ∀ entries,
      fs (getAccountDir bankId an) = some entries →
      ∀ f ∈ entries, List.isSuffixOf ".csv".data f.name.data = true →
        (parseTransactionsFilename f.name).isSome = true) :
    hasTransactionsForToday fs bankId accountNames todayEpochDay = true ↔
      ∀ an ∈ accountNames, specHasArchiveModifiedToday fs bankId an todayEpochDay := by
  unfold hasTransactionsForToday
  rw [List.all_eq_true]
  constructor
  · intro h an han
    have hm := h an han
    rcases hinfo : getLatestTransactionsFile fs bankId an with _ | info <;>
      rw [hinfo] at hm
    · exact absurd hm (by simp)
    · have hday : info.lastModifiedMs / 86400000 = todayEpochDay := by
        simpa using hm
      obtain ⟨entries, hdir, f, hf, hsuf, hp, hmt, _⟩ :=
        getLatest_some_elim fs bankId an info hinfo
      exact ⟨entries, hdir, f, hf, hsuf, by simp [hp], by rw [hmt]; exact hday⟩
  · intro h an han
    obtain ⟨entries, hdir, f, hf, hsuf, hp, hday⟩ := h an han
    have hffil : f ∈ entries.filter (fun f => List.isSuffixOf ".csv".data f.name.data) :=
      List.mem_filter.mpr ⟨hf, hsuf⟩
    rcases hfil : entries.filter (fun f => List.isSuffixOf ".csv".data f.name.data) with
      _ | ⟨x, xs⟩
    · rw [hfil] at hffil; exact absurd hffil (List.not_mem_nil f)
    · have hg : pickLatestAux x xs ∈ x :: xs := pickLatestAux_mem xs x
      have hgfil : pickLatestAux x xs ∈
          entries.filter (fun f => List.isSuffixOf ".csv".data f.name.data) := by
        rw [hfil]; exact hg
      have hgmem : pickLatestAux x xs ∈ entries := (List.mem_filter.mp hgfil).1
      have hgsuf : List.isSuffixOf ".csv".data (pickLatestAux x xs).name.data = true :=
        (List.mem_filter.mp hgfil).2
      have hgparse := hparse an han entries hdir (pickLatestAux x xs) hgmem hgsuf
      obtain ⟨sd, hsd⟩ := Option.isSome_iff_exists.mp hgparse
      have hfle : f.mtimeMs ≤ (pickLatestAux x xs).mtimeMs := by
        apply le_pickLatestAux xs x
        rw [← hfil]; exact hffil
      have hgday : (pickLatestAux x xs).mtimeMs / 86400000 = todayEpochDay := by
        have h1 : todayEpochDay ≤ (pickLatestAux x xs).mtimeMs / 86400000 :=
          hday ▸ Nat.div_le_div_right hfle
        have h2 : (pickLatestAux x xs).mtimeMs / 86400000 ≤ todayEpochDay :=
          hpast an han entries hdir (pickLatestAux x xs) hgmem
        omega
      have hlatest : getLatestTransactionsFile fs bankId an =
          some ⟨an, bankId, sd, (pickLatestAux x xs).name, (pickLatestAux x xs).mtimeMs⟩ := by
        unfold getLatestTransactionsFile
        rw [hdir]
        simp only [hfil, pickLatest, hsd]
      rw [hlatest]
      simpa using hgday

/-- Witness for C8: one account whose single archive file was modified on
epoch day 19742. -/
theorem hasTransactionsForToday_iff_witness :
    hasTransactionsForToday
      (fun p => if p = getAccountDir "ce" "main" then
        some [⟨"history-from-20230301.csv", 86400000 * 19742 + 123, "x"⟩] else none)
      "ce" ["main"] 19742 = true ↔
    ∀ an ∈ ["main"], specHasArchiveModifiedToday
      (fun p => if p = getAccountDir "ce" "main" then
        some [⟨"history-from-20230301.csv", 86400000 * 19742 + 123, "x"⟩] else none)
      "ce" an 19742 :=
  hasTransactionsForToday_iff _ "ce" ["main"] 19742
    (by
      intro an han entries heq f hf
      have han' : an = "main" := by simpa using han
      subst han'
      rw [if_pos rfl] at heq
      cases Option.some.inj heq
      have : f = ⟨"history-from-20230301.csv", 86400000 * 19742 + 123, "x"⟩ := by
        simpa using hf
      subst this
      decide)
    (by
      intro an han entries heq f hf _
      have han' : an = "main" := by simpa using han
      subst han'
      rw [if_pos rfl] at heq
      cases Option.some.inj heq
      have : f = ⟨"history-from-20230301.csv", 86400000 * 19742 + 123, "x"⟩ := by
        simpa using hf
      subst this
      decide)

/-! ## Claims C3 and C4: reuse decision and the fatal create error -/

/-- A truthy optional string is the underlying string. -/
theorem truthyOpt_eq_some (o : Option String) (s : String)
    (h : truthyOpt o = some s) : o = some s := by
  rcases o with _ | v
  · exact absurd h (by simp [truthyOpt])
  · simp only [truthyOpt] at h
    by_cases hv : v.isEmpty
    · rw [if_pos hv] at h; exact absurd h (by simp)
    · rw [if_neg hv] at h; rw [Option.some.inj h]

/-- Boolean reuse test versus its propositional reading: every target has a
retained resource whose window equals the reconciliation window. -/
theorem allHaveCorrectDateRange_iff (targets : List String)
    (hist : List (String × HistoryItem)) (startDate today : String) :
    allHaveCorrectDateRange targets hist startDate today = true ↔
      ∀ p ∈ targets, ∃ item, List.lookup p hist = some item ∧
        item.startDate = some startDate ∧ item.endDate = some today := by
  unfold allHaveCorrectDateRange
  rw [List.all_eq_true]
  constructor
  · intro h p hp
    have hm := h p hp
    rcases hl : List.lookup p hist with _ | item <;> rw [hl] at hm
    · exact absurd hm (by simp)
    · simp only [Bool.and_eq_true, beq_iff_eq] at hm
      exact ⟨item, rfl, hm.1, hm.2⟩
  · intro h p hp
    obtain ⟨item, hl, h1, h2⟩ := h p hp
    rw [hl]
    simp [h1, h2]

/-- Zero create successes means the oracle rejected every call position. -/
theorem createSuccessCount_eq_zero_iff (calls : List String) (createOk : Nat → Bool) :
    createSuccessCount calls createOk = 0 ↔
      ∀ i, i < calls.length → createOk i = false := by
  unfold createSuccessCount
  rw [List.length_eq_zero, List.filter_eq_nil_iff]
  constructor
  · intro h i hi
    have := h i (List.mem_range.mpr hi)
    simpa using this
  · intro h a ha
    simp [h a (List.mem_range.mp ha)]

/-- C3. If every target account has a retained resource matching the
reconciliation window exactly, the engine posts no create-request and every
download attempt uses a request id taken from a retained resource; if even
one target account has a missing or stale retained resource, every target
account appears among the posted create-requests. -/
theorem reuse_all_or_nothing (accountsInfo : List AccountDownloadInfo)
    (historyItems updatedItems : List HistoryItem) (startDate today : String)
    (pfmToName : String → Option String) (createOk : Nat → Bool)
    (downloadOk : String → Bool) :
    ((∀ p ∈ targetPfmContractIds accountsInfo,
        ∃ item, List.lookup p (retainHistoryByAccount
            (targetPfmContractIds accountsInfo) historyItems) = some item ∧
          item.startDate = some startDate ∧ item.endDate = some today) →
      (downloadTransactionsAfterGuard accountsInfo historyItems updatedItems
          startDate today pfmToName createOk downloadOk).createdCalls = [] ∧
      ∀ rid ∈ (downloadTransactionsAfterGuard accountsInfo historyItems
          updatedItems startDate today pfmToName createOk downloadOk).downloadAttempts,
        ∃ p ∈ targetPfmContractIds accountsInfo,
          ∃ item, List.lookup p (retainHistoryByAccount
              (targetPfmContractIds accountsInfo) historyItems) = some item ∧
            item.requestId = some rid) ∧
    (¬(∀ p ∈ targetPfmContractIds accountsInfo,
        ∃ item, List.lookup p (retainHistoryByAccount
            (targetPfmContractIds accountsInfo) historyItems) = some item ∧
          item.startDate = some startDate ∧ item.endDate = some today) →
      ∀ q ∈ targetPfmContractIds accountsInfo,
        q ∈ (downloadTransactionsAfterGuard accountsInfo historyItems updatedItems
          startDate today pfmToName createOk downloadOk).createdCalls) := by
  constructor
  · intro hall
    have hb : allHaveCorrectDateRange (targetPfmContractIds accountsInfo)
        (retainHistoryByAccount (targetPfmContractIds accountsInfo) historyItems)
        startDate today = true :=
      (allHaveCorrectDateRange_iff _ _ _ _).mpr hall
    unfold downloadTransactionsAfterGuard
    rw [if_pos hb]
    constructor
    · rfl
    · intro rid hrid
      simp only [finishDownloads, List.mem_filterMap, List.mem_filter,
        List.mem_map] at hrid
      obtain ⟨a, ⟨⟨p, hp, rfl⟩, _⟩, hrt⟩ := hrid
      obtain ⟨item, hitem, _, _⟩ := hall p hp
      rw [hitem] at hrt
      refine ⟨p, hp, item, hitem, ?_⟩
      simp only [dlInfoOfItem, Option.getD_some] at hrt
      exact truthyOpt_eq_some item.requestId rid hrt
  · intro hnall q hq
    have hb : allHaveCorrectDateRange (targetPfmContractIds accountsInfo)
        (retainHistoryByAccount (targetPfmContractIds accountsInfo) historyItems)
        startDate today = false := by
      rcases hb : allHaveCorrectDateRange (targetPfmContractIds accountsInfo)
          (retainHistoryByAccount (targetPfmContractIds accountsInfo) historyItems)
          startDate today with _ | _
      · rfl
      · exact absurd ((allHaveCorrectDateRange_iff _ _ _ _).mp hb) hnall
    have hmem : q ∈ createCalls accountsInfo := by
      have := (mem_dedupFirst q _).mp hq
      simpa [createCalls, targetPfmContractIds] using this
    unfold downloadTransactionsAfterGuard
    rw [if_neg (by simp [hb])]
    rcases hc : createDownloadRequests accountsInfo createOk updatedItems
        pfmToName (targetPfmContractIds accountsInfo) with e | l
    · exact hmem
    · exact hmem

/-- Witness for C3: two target accounts, the second without a retained
resource, so the second account is (with all others) among the posted
create-requests. -/
theorem reuse_all_or_nothing_witness :
    "a2" ∈ (downloadTransactionsAfterGuard
      [⟨some "a1", some "Acc 1", none, none, none⟩,
       ⟨some "a2", some "Acc 2", none, none, none⟩]
      [⟨some "a1", some "2024-01-01", some "2026-03-01", some "r1"⟩] []
      "2024-01-01" "2026-03-01" (fun _ => none) (fun _ => true)
      (fun _ => true)).createdCalls :=
  (reuse_all_or_nothing
    [⟨some "a1", some "Acc 1", none, none, none⟩,
     ⟨some "a2", some "Acc 2", none, none, none⟩]
    [⟨some "a1", some "2024-01-01", some "2026-03-01", some "r1"⟩] []
    "2024-01-01" "2026-03-01" (fun _ => none) (fun _ => true)
    (fun _ => true)).2
    (fun hall => Option.noConfusion (hall "a2" (by decide)).choose_spec.1)
    "a2" (by decide)

/-- C4. When the reuse test fails, the engine posts create-requests; if the
oracle fails all of them the run ends with the fatal error and performs no
prepare, fetch or archive write, while a single success is enough for the
run to proceed to the download phase. -/
theorem fatal_abort_on_all_create_failures (accountsInfo : List AccountDownloadInfo)
    (historyItems updatedItems : List HistoryItem) (startDate today : String)
    (pfmToName : String → Option String) (createOk : Nat → Bool)
    (downloadOk : String → Bool)
    (hnall : ¬(∀ p ∈ targetPfmContractIds accountsInfo,
        ∃ item, List.lookup p (retainHistoryByAccount
            (targetPfmContractIds accountsInfo) historyItems) = some item ∧
          item.startDate = some startDate ∧ item.endDate = some today)) :
    ((∀ i, i < (createCalls accountsInfo).length → createOk i = false) →
      (downloadTransactionsAfterGuard accountsInfo historyItems updatedItems
          startDate today pfmToName createOk downloadOk).result =
        Except.error "Failed to create any download requests. Aborting." ∧
      (downloadTransactionsAfterGuard accountsInfo historyItems updatedItems
          startDate today pfmToName createOk downloadOk).downloadAttempts = [] ∧
      (downloadTransactionsAfterGuard accountsInfo historyItems updatedItems
          startDate today pfmToName createOk downloadOk).savedAccounts = []) ∧
    ((∃ i, i < (createCalls accountsInfo).length ∧ createOk i = true) →
      ∃ n, (downloadTransactionsAfterGuard accountsInfo historyItems updatedItems
          startDate today pfmToName createOk downloadOk).result = Except.ok n) := by
  have hb : allHaveCorrectDateRange (targetPfmContractIds accountsInfo)
      (retainHistoryByAccount (targetPfmContractIds accountsInfo) historyItems)
      startDate today = false := by
    rcases hb : allHaveCorrectDateRange (targetPfmContractIds accountsInfo)
        (retainHistoryByAccount (targetPfmContractIds accountsInfo) historyItems)
        startDate today with _ | _
    · rfl
    · exact absurd ((allHaveCorrectDateRange_iff _ _ _ _).mp hb) hnall
  constructor
  · intro hfail
    have hzero : createSuccessCount (createCalls accountsInfo) createOk = 0 :=
      (createSuccessCount_eq_zero_iff _ _).mpr hfail
    have hcr : createDownloadRequests accountsInfo createOk updatedItems
        pfmToName (targetPfmContractIds accountsInfo) =
        Except.error "Failed to create any download requests. Aborting." := by
      unfold createDownloadRequests
      rw [if_pos hzero]
    unfold downloadTransactionsAfterGuard
    rw [if_neg (by simp [hb]), hcr]
    exact ⟨rfl, rfl, rfl⟩
  · intro hone
    have hnz : ¬(createSuccessCount (createCalls accountsInfo) createOk = 0) := by
      intro h0
      obtain ⟨i, hi, hok⟩ := hone
      rw [(createSuccessCount_eq_zero_iff _ _).mp h0 i hi] at hok
      exact Bool.noConfusion hok
    unfold downloadTransactionsAfterGuard
    rw [if_neg (by simp [hb])]
    unfold createDownloadRequests
    rw [if_neg hnz]
    exact ⟨_, rfl⟩

/-- Witness for C4: three target accounts, no reusable resources, and an
oracle failing every create-request; the run ends with the fatal error and
an empty download trace. -/
theorem fatal_abort_on_all_create_failures_witness :
    (downloadTransactionsAfterGuard
      [⟨some "a1", some "Acc 1", none, none, none⟩,
       ⟨some "a2", some "Acc 2", none, none, none⟩,
       ⟨some "a3", some "Acc 3", none, none, none⟩]
      [] [] "2024-01-01" "2026-03-01" (fun _ => none) (fun _ => false)
      (fun _ => true)).result =
      Except.error "Failed to create any download requests. Aborting." ∧
    (downloadTransactionsAfterGuard
      [⟨some "a1", some "Acc 1", none, none, none⟩,
       ⟨some "a2", some "Acc 2", none, none, none⟩,
       ⟨some "a3", some "Acc 3", none, none, none⟩]
      [] [] "2024-01-01" "2026-03-01" (fun _ => none) (fun _ => false)
      (fun _ => true)).downloadAttempts = [] ∧
    (downloadTransactionsAfterGuard
      [⟨some "a1", some "Acc 1", none, none, none⟩,
       ⟨some "a2", some "Acc 2", none, none, none⟩,
       ⟨some "a3", some "Acc 3", none, none, none⟩]
      [] [] "2024-01-01" "2026-03-01" (fun _ => none) (fun _ => false)
      (fun _ => true)).savedAccounts = [] :=
  (fatal_abort_on_all_create_failures
    [⟨some "a1", some "Acc 1", none, none, none⟩,
     ⟨some "a2", some "Acc 2", none, none, none⟩,
     ⟨some "a3", some "Acc 3", none, none, none⟩]
    [] [] "2024-01-01" "2026-03-01" (fun _ => none) (fun _ => false)
    (fun _ => true)
    (fun hall => Option.noConfusion (hall "a1" (by decide)).choose_spec.1)).1
    (fun _ _ => rfl)

/-! ## Claim C9: the credential-resolver fallback chain -/

/-- A nonempty string is not `isEmpty`. -/
theorem isEmpty_false_of_ne (s : String) (h : ¬(s = "")) : s.isEmpty = false := by
  rw [Bool.eq_false_iff]
  intro he
  exact h ((String.isEmpty_iff s).mp he)

/-- C9. The resolver prefers the header observed on an in-flight request;
otherwise it scans the stored entries in order, and on each entry tries the
bearer pattern, then the JSON token fields, then the key-name heuristic, the
first success winning; with no match anywhere it returns the empty header
and the run continues with the result (no exception is possible in the
model, which is total). -/
theorem resolveAuthHeader_chain (fallback k v : String)
    (entries rest : List (String × String)) :
    (¬(fallback = "") → resolveAuthHeader fallback entries = (fallback, "request")) ∧
    (extractTokenFromStorage entries = none →
      resolveAuthHeader "" entries = ("", "none")) ∧
    (¬(v = "") → ∀ m, bearerSearch v.data = some m →
      tryStorageEntry k v = some (String.mk m, k)) ∧
    (¬(v = "") → bearerSearch v.data = none →
      ∀ t, extractJsonTokenValue v.data = some t →
        tryStorageEntry k v = some (String.mk t, k)) ∧
    (¬(v = "") → bearerSearch v.data = none →
      extractJsonTokenValue v.data = none → keyLooksAuthLike k.data = true →
      10 < v.length → tryStorageEntry k v = some (v, k)) ∧
    (∀ r, tryStorageEntry k v = some r →
      extractTokenFromStorage ((k, v) :: rest) = some r) ∧
    (tryStorageEntry k v = none →
      extractTokenFromStorage ((k, v) :: rest) = extractTokenFromStorage rest) := by
  refine ⟨?_, ?_, ?_, ?_, ?_, ?_, ?_⟩
  · intro h
    unfold resolveAuthHeader
    rw [if_pos (by rw [isEmpty_false_of_ne fallback h]; rfl)]
  · intro h
    unfold resolveAuthHeader
    rw [if_neg (by decide), h]
  · intro hv m hm
    unfold tryStorageEntry
    rw [if_neg (by rw [isEmpty_false_of_ne v hv]; simp), hm]
  · intro hv hb t ht
    unfold tryStorageEntry
    rw [if_neg (by rw [isEmpty_false_of_ne v hv]; simp), hb, ht]
  · intro hv hb hj hk hlen
    unfold tryStorageEntry
    rw [if_neg (by rw [isEmpty_false_of_ne v hv]; simp), hb, hj,
      if_pos (by rw [hk]; simpa using hlen)]
  · intro r hr
    unfold extractTokenFromStorage
    rw [hr]
  · intro hr
    show (match tryStorageEntry k v with
      | some r => some r
      | none => extractTokenFromStorage rest) = extractTokenFromStorage rest
    rw [hr]

/-- Witness for C9: the in-flight header wins when present. -/
theorem resolveAuthHeader_chain_witness :
    resolveAuthHeader "Bearer abc"
      [("session", "\x7b\"access_token\":\"abcdefghijkl\"\x7d")] =
      ("Bearer abc", "request") :=
  (resolveAuthHeader_chain "Bearer abc" "k" "v"
    [("session", "\x7b\"access_token\":\"abcdefghijkl\"\x7d")] []).1 (by decide)
